import Mathlib

/-!
Verification of the `follow` library (a "tail -F"-style file follower).

We shallowly embed the line-oriented read/split logic of
`Follower.mainloop`, the open/reopen positioning of `Follower.openFile`
and `Follower.reopen`, the remove/rename reconnect policy, and the
context-cancellation emission logic.

Bytes are modelled as `Nat` (the newline delimiter is byte 10), a file's
contents as a `List Nat`, and the handle's seek cursor as a `Nat` offset.
Durations are modelled as `Int` nanoseconds (Go's `time.Duration`).
-/

namespace Follow

/-- The newline delimiter byte used by `bytes.Split(d, []byte{'\n'})`. -/
def delim : Nat := 10

/-- `bytes.Split(d, []byte{'\n'})` for a one-byte separator: split `d` at
every occurrence of `delim`.  On empty input Go returns a single empty
segment. -/
def splitNL : List Nat → List (List Nat)
  | [] => [[]]
  | b :: rest =>
    match splitNL rest with
    | [] => [[]]
    | s :: ss => if b = delim then [] :: s :: ss else (b :: s) :: ss

/-- `ioutil.ReadAll(fp)`: read everything from the cursor to end-of-file.
Returns the bytes read and the new cursor.  Reading at or past
end-of-file returns no bytes and leaves the cursor where it was. -/
def readAll (c : List Nat) (pos : Nat) : List Nat × Nat :=
  (c.drop pos, max pos c.length)

/-- The read-and-truncation-check phase of the Write-event branch of
`Follower.mainloop` (follow.go lines 167-190): `ReadAll`, and if zero
bytes came back compare the cursor against the freshly sought
end-of-file; if the cursor is strictly past the end, seek to the start
and read the whole file again, otherwise restore the cursor.  Returns
the data to be split and the cursor after the phase. -/
def readPhase (c : List Nat) (pos : Nat) : List Nat × Nat :=
  let d := (readAll c pos).1
  let pos1 := (readAll c pos).2
  if d.length = 0 then
    let cur := pos1
    let endP := c.length
    if endP < cur then
      (c, c.length)
    else
      (d, cur)
  else
    (d, pos1)

/-- The full Write-event branch of `Follower.mainloop` (follow.go lines
165-205): read, split on the delimiter, seek backwards by the length of
the last segment when it is non-empty, and emit every segment but the
last.  Returns the emitted line records (in order) and the cursor after
the event. -/
def handleWrite (c : List Nat) (pos : Nat) : List (List Nat) × Nat :=
  let d := (readPhase c pos).1
  let pos2 := (readPhase c pos).2
  let s := splitNL d
  let lastSeg := s.getLastD []
  let pos3 := if lastSeg.length ≠ 0 then pos2 - lastSeg.length else pos2
  (s.dropLast, pos3)

/-- The carry fragment retained (by seeking backwards) after a Write
event: the last segment of the split. -/
def carryAfter (c : List Nat) (pos : Nat) : List Nat :=
  (splitNL (readPhase c pos).1).getLastD []

/-- `Follower.openFile(reopen)` cursor positioning (follow.go lines
101-121): `os.Open` places the cursor at offset 0; when `reopen` is
false the handle is then sought to end-of-file. -/
def openFilePos (reopen : Bool) (c : List Nat) : Nat :=
  if !reopen then c.length else 0

/-- `Follower.reopen` (follow.go lines 123-133) re-acquires the handle
via `openFile(false)`. -/
def reopenPos (c : List Nat) : Nat := openFilePos false c

/-- Modelled from the spec (for comparison only, claim C6): "reacquires
the file from its current byte offset as seen by the filesystem, not
from end" — a freshly opened handle's offset as seen by the filesystem
is 0. -/
def specReopenPos (_c : List Nat) : Nat := 0

/-- `Follower.Start` initial open (follow.go lines 61-72) calls
`openFile(false)`. -/
def startPos (c : List Nat) : Nat := openFilePos false c

/-- Modelled from the spec (for comparison only, claim C3): the spec's
words "trimmed of leading zero bytes before emission" applied in front
of the split-and-emit step. -/
def handleWriteSpecTrim (c : List Nat) (pos : Nat) : List (List Nat) :=
  let d := (readPhase c pos).1
  let d' := d.dropWhile (fun b => b = 0)
  (splitNL d').dropLast

/-! ### Reconnect policy (Remove/Rename branch, follow.go lines 209-251) -/

/-- Result of the Remove/Rename branch of `Follower.mainloop`.
`fatalWentAway` is the immediate `"follow: file went away"` error,
`fatalExhausted` the `"follow: file went away and can't reopen"`
reconnect-exhaustion error, `diverge` the case where the loop never
terminates (unbounded retry with no successful open ever). -/
inductive RecResult where
  | reconnected
  | fatalWentAway
  | fatalExhausted
  | diverge
deriving DecidableEq, Repr

/-- One nanosecond short of nothing: Go's `1 * time.Second` as an `Int`
count of nanoseconds. -/
def nsPerSecond : Int := 1000000000

/-- Outcome of the `i`-th consecutive `openFile(true)` attempt.  The
environment is a finite list of outcomes; attempts beyond the list
fail. -/
def attemptAt (opens : List Bool) (i : Nat) : Bool := opens.getD i false

/-- The fast phase (follow.go lines 223-229): 10 attempts at a short
interval; succeeds if any of the first 10 attempts succeeds. -/
def fastPhase (opens : List Bool) : Bool :=
  (List.range 10).any (fun i => attemptAt opens i)

/-- Number of slow-phase attempts performed when every attempt fails and
`Retry ≠ -1` (follow.go lines 231-247): starting from `wait = Retry`,
each iteration first breaks if `wait ≤ 0`, then decrements `wait` by one
second and makes one attempt.  Fuel-indexed so the kernel can evaluate
it; `wait.toNat` fuel suffices since `wait` drops by a full second per
attempt. -/
def slowIter : Nat → Int → Nat
  | 0, _ => 0
  | fuel + 1, wait => if wait ≤ 0 then 0 else 1 + slowIter fuel (wait - nsPerSecond)

/-- Attempt budget of the slow phase for a non-`-1` retry setting. -/
def slowAttemptCount (wait : Int) : Nat := slowIter wait.toNat wait

/-- The whole Remove/Rename branch (follow.go lines 209-251), given the
configured `Retry` duration and the environment's open outcomes:
`Retry == 0` emits the fatal went-away error immediately; otherwise the
fast phase runs; if it fails, the slow phase runs forever when
`Retry == -1` (reconnecting at the first later successful attempt,
diverging if there is none), else for `slowAttemptCount Retry` attempts,
ending in the reconnect-exhaustion error. -/
def reconnect (retry : Int) (opens : List Bool) : RecResult :=
  if retry = 0 then
    .fatalWentAway
  else if fastPhase opens then
    .reconnected
  else if retry = -1 then
    if (List.range opens.length).any (fun i => attemptAt opens (10 + i)) then
      .reconnected
    else
      .diverge
  else
    if (List.range (slowAttemptCount retry)).any (fun i => attemptAt opens (10 + i)) then
      .reconnected
    else
      .fatalExhausted

/-! ### Context cancellation (follow.go lines 137-143, 95-97) -/

/-- Values of `ctx.Err()` once the context is done. -/
inductive CtxErr where
  | canceled
  | deadlineExceeded
  | other
deriving DecidableEq, Repr

/-- An output record on the `Data` channel. -/
inductive Rec where
  | line (bs : List Nat)
  | errRec (e : CtxErr)
  | eof
deriving DecidableEq, Repr

/-- Records emitted after `ctx.Done()` fires: `mainloop` (follow.go
lines 137-143) emits `ctx.Err()` when it is non-nil and not
`context.Canceled`, then signals `stop`, upon which `Start` (line 96)
emits the terminal `io.EOF`. -/
def ctxDoneEmissions : Option CtxErr → List Rec
  | none => [Rec.eof]
  | some e => (if e = CtxErr.canceled then [] else [Rec.errRec e]) ++ [Rec.eof]

/-! ### Basic lemmas about the splitter -/

/-- The split of any byte list is non-empty. -/
theorem splitNL_ne_nil (d : List Nat) : splitNL d ≠ [] := by
  cases d with
  | nil => simp [splitNL]
  | cons b rest =>
    simp only [splitNL]
    cases h : splitNL rest with
    | nil => simp
    | cons s ss => by_cases hb : b = delim <;> simp [hb]

/-- No segment produced by the splitter contains the delimiter. -/
theorem splitNL_no_delim (d : List Nat) : ∀ s ∈ splitNL d, delim ∉ s := by
  induction d with
  | nil => intro s hs; simp [splitNL] at hs; simp [hs]
  | cons b rest ih =>
    intro s hs
    simp only [splitNL] at hs
    cases h : splitNL rest with
    | nil => exact absurd h (splitNL_ne_nil rest)
    | cons t ts =>
      rw [h] at hs
      by_cases hb : b = delim
      · simp [hb] at hs
        rcases hs with hs | hs | hs
        · simp [hs]
        · exact ih s (by rw [h]; simp [hs])
        · exact ih s (by rw [h]; simp [hs])
      · simp [hb] at hs
        rcases hs with hs | hs
        · subst hs
          intro hmem
          rcases List.mem_cons.mp hmem with hd | htl
          · exact hb hd.symm
          · exact ih t (by rw [h]; simp) htl
        · exact ih s (by rw [h]; simp [hs])

/-- Joining the split segments with the delimiter recovers the input:
the split loses nothing but the delimiters it strips. -/
theorem splitNL_intercalate (d : List Nat) :
    List.intercalate [delim] (splitNL d) = d := by
  induction d with
  | nil => simp [splitNL, List.intercalate]
  | cons b rest ih =>
    simp only [splitNL]
    cases h : splitNL rest with
    | nil => exact absurd h (splitNL_ne_nil rest)
    | cons t ts =>
      rw [h] at ih
      by_cases hb : b = delim
      · simp only [hb, if_pos rfl]
        simp only [List.intercalate] at ih ⊢
        simp only [List.intersperse] at ih ⊢
        simp [ih]
      · simp only [if_neg hb]
        simp only [List.intercalate] at ih ⊢
        cases ts with
        | nil => simp at ih ⊢; simp [ih]
        | cons u us =>
          simp only [List.intersperse] at ih ⊢
          simp at ih ⊢
          simp [ih]

/-- The defaulted last element of a non-empty list is a member. -/
theorem getLastD_mem {α : Type} (l : List α) (a : α) (h : l ≠ []) :
    l.getLastD a ∈ l := by
  induction l generalizing a with
  | nil => exact absurd rfl h
  | cons b bs ih =>
    cases bs with
    | nil => simp [List.getLastD]
    | cons u us =>
      rw [List.getLastD_cons]
      exact List.mem_cons_of_mem _ (ih b (by simp))

/-- Reattaching the defaulted last element to the dropped-last prefix
recovers a non-empty list. -/
theorem dropLast_append_getLastD {α : Type} (a : α) (l : List α) (h : l ≠ []) :
    l.dropLast ++ [l.getLastD a] = l := by
  induction l generalizing a with
  | nil => exact absurd rfl h
  | cons b bs ih =>
    cases bs with
    | nil => simp [List.getLastD]
    | cons u us =>
      rw [List.getLastD_cons]
      have := ih b (by simp)
      simp only [List.dropLast_cons₂, List.cons_append]
      rw [this]

/-- When the read returns at least one byte, `readPhase` is just the
bytes past the cursor together with the end-of-file cursor. -/
theorem readPhase_of_drop_ne_nil (c : List Nat) (pos : Nat)
    (h : c.drop pos ≠ []) :
    readPhase c pos = (c.drop pos, c.length) := by
  have hlt : pos < c.length := by
    by_contra hge
    exact h (List.drop_eq_nil_of_le (by omega))
  have hmax : max pos c.length = c.length := by omega
  simp only [readPhase, readAll]
  rw [if_neg (show ¬(List.drop pos c).length = 0 by
        simp only [List.length_drop]; omega),
    hmax]

/-- At exactly end-of-file the read phase returns nothing and leaves the
cursor in place. -/
theorem readPhase_at_end (c : List Nat) :
    readPhase c c.length = ([], c.length) := by
  simp [readPhase, readAll]

/-- The Write-event handler, characterised without its internal
conditional: the cursor always ends up the last segment's length before
the post-read cursor (subtracting a zero length when the fragment is
empty). -/
theorem handleWrite_eq (c : List Nat) (pos : Nat) :
    handleWrite c pos =
      ((splitNL (readPhase c pos).1).dropLast,
       (readPhase c pos).2 -
         ((splitNL (readPhase c pos).1).getLastD []).length) := by
  by_cases h : ((splitNL (readPhase c pos).1).getLastD []).length = 0
  · simp only [handleWrite]
    rw [if_neg (not_not_intro h), h, Nat.sub_zero]
  · simp only [handleWrite]
    rw [if_pos h]

/-! ### Claim theorems -/

/-- Claim C1: on a Write event (with a non-empty read), the bytes read
since the last position are split on the newline byte; every segment
except the last is emitted, in split order, with the delimiter stripped
(joining the segments with the delimiter recovers the data); and the
cursor ends exactly the last segment's length before end-of-file, i.e.
it is seeked backward by the unemitted fragment's length. -/
theorem write_event_split_and_seekback (c : List Nat) (pos : Nat)
    (h : c.drop pos ≠ []) :
    (handleWrite c pos).1 = (splitNL (c.drop pos)).dropLast ∧
    (handleWrite c pos).2 =
      c.length - ((splitNL (c.drop pos)).getLastD []).length ∧
    List.intercalate [delim] (splitNL (c.drop pos)) = c.drop pos := by
  have hrp := readPhase_of_drop_ne_nil c pos h
  refine ⟨?_, ?_, splitNL_intercalate _⟩
  · simp [handleWrite_eq, hrp]
  · simp [handleWrite_eq, hrp]

/-- Witness for C1 at the file `"hi\nyo"` read from offset 0: `"hi"` is
emitted and the cursor is seeked back over the fragment `"yo"`. -/
theorem write_event_split_and_seekback_witness :
    (handleWrite [104, 105, 10, 121, 111] 0).1 = [[104, 105]] ∧
    (handleWrite [104, 105, 10, 121, 111] 0).2 = 3 := by
  have := write_event_split_and_seekback [104, 105, 10, 121, 111] 0 (by decide)
  exact ⟨by rw [this.1]; decide, by rw [this.2.1]; decide⟩

/-- Claim C2: on a Write event whose read returns zero bytes, the
end-of-file is queried; if the cursor is strictly past the end the
handle seeks to offset zero and the whole file is re-read; otherwise the
cursor is restored unchanged and no data is emitted from the event. -/
theorem write_event_zero_read (c : List Nat) (pos : Nat)
    (h : c.drop pos = []) :
    (c.length < pos → readPhase c pos = (c, c.length)) ∧
    (pos ≤ c.length →
      readPhase c pos = ([], pos) ∧ handleWrite c pos = ([], pos)) := by
  have hle : c.length ≤ pos := by
    by_contra hlt
    have : c.drop pos ≠ [] := by
      intro hnil
      have := List.length_drop pos c ▸ congrArg List.length hnil
      simp at this
      omega
    exact this h
  constructor
  · intro hlt
    simp only [readPhase, readAll, h]
    have hmax : max pos c.length = pos := by omega
    rw [hmax]
    simp [hlt]
  · intro hge
    have heq : pos = c.length := le_antisymm hge hle
    subst heq
    exact ⟨readPhase_at_end c, by simp [handleWrite, readPhase_at_end, splitNL]⟩

/-- Witness for C2: with contents `[5]`, a cursor at 2 (past end) makes
the phase re-read the whole file from the start; a cursor at 1 (at end)
leaves the cursor untouched and emits nothing. -/
theorem write_event_zero_read_witness :
    readPhase [5] 2 = ([5], 1) ∧
    (readPhase [5] 1 = ([], 1) ∧ handleWrite [5] 1 = ([], 1)) :=
  ⟨(write_event_zero_read [5] 2 (by decide)).1 (by decide),
   (write_event_zero_read [5] 1 (by decide)).2 (by decide)⟩

/-- Counterexample to claim C3: the read `[0, 10]` begins with a zero
byte, yet the emitted line is `[0]` — the zero byte is retained, while
the spec's trim-before-emission would emit the empty line. -/
theorem no_zero_trim_counterexample :
    (readPhase [0, 10] 0).1 = [0, 10] ∧
    (handleWrite [0, 10] 0).1 = [[0]] ∧
    handleWriteSpecTrim [0, 10] 0 = [[]] ∧
    (handleWrite [0, 10] 0).1 ≠ handleWriteSpecTrim [0, 10] 0 := by decide

/-- Claim C3 amended: no trimming of leading zero bytes occurs; the
emitted lines together with the carry fragment, rejoined with the
delimiter, reconstitute the raw read data byte-for-byte, so no byte
(zero or otherwise) is dropped other than the stripped delimiters. -/
theorem emissions_preserve_raw_read (c : List Nat) (pos : Nat) :
    List.intercalate [delim] ((handleWrite c pos).1 ++ [carryAfter c pos]) =
      (readPhase c pos).1 := by
  have h1 : (handleWrite c pos).1 = (splitNL (readPhase c pos).1).dropLast := rfl
  rw [h1, carryAfter,
    dropLast_append_getLastD [] _ (splitNL_ne_nil (readPhase c pos).1),
    splitNL_intercalate]

/-- Counterexample to claim C4: `Retry = -2` is negative, yet with every
open attempt failing the Remove/Rename branch emits the fatal
reconnect-exhaustion error — only `-1` means unbounded retry. -/
theorem retry_negative_counterexample :
    (-2 : Int) < 0 ∧ reconnect (-2) [] = RecResult.fatalExhausted := by decide

/-- Claim C4 amended: only `Retry = -1` retries indefinitely — with
`Retry = -1` the session never emits a fatal error after Remove/Rename;
any other negative value yields zero slow-phase attempts, so when the
fast phase also fails the reconnect-exhaustion error is emitted. -/
theorem retry_unbounded_only_neg_one :
    (∀ opens : List Bool,
      reconnect (-1) opens ≠ RecResult.fatalExhausted ∧
      reconnect (-1) opens ≠ RecResult.fatalWentAway) ∧
    ∀ r : Int, r < 0 → r ≠ -1 →
      slowAttemptCount r = 0 ∧ reconnect r [] = RecResult.fatalExhausted := by
  constructor
  · intro opens
    unfold reconnect
    rw [if_neg (by decide : ¬(-1 : Int) = 0)]
    split
    · exact ⟨by decide, by decide⟩
    · rw [if_pos rfl]
      split
      · exact ⟨by decide, by decide⟩
      · exact ⟨by decide, by decide⟩
  · intro r hneg hne
    have hcnt : slowAttemptCount r = 0 := by
      unfold slowAttemptCount
      rw [Int.toNat_of_nonpos (le_of_lt hneg)]
      rfl
    refine ⟨hcnt, ?_⟩
    unfold reconnect
    rw [if_neg (by omega : ¬r = 0)]
    rw [if_neg (by decide : ¬fastPhase [] = true)]
    rw [if_neg hne, hcnt]
    rfl

/-- Witness for the amended C4 at `Retry = -2`. -/
theorem retry_unbounded_only_neg_one_witness :
    slowAttemptCount (-2) = 0 ∧ reconnect (-2) [] = RecResult.fatalExhausted :=
  retry_unbounded_only_neg_one.2 (-2) (by decide) (by decide)

/-- Counterexample to claim C5: with `Retry = 0`, even when the very
first fast-phase attempt would succeed, the Remove/Rename branch emits
the fatal went-away error without attempting any reconnection. -/
theorem retry_zero_counterexample :
    fastPhase [true] = true ∧
    reconnect 0 [true] = RecResult.fatalWentAway ∧
    reconnect 0 [true] ≠ RecResult.reconnected := by decide

/-- Claim C5 amended: with `Retry = 0`, a Remove/Rename event
immediately emits the fatal went-away error and terminates; neither the
fast nor the slow reconnect phase runs. -/
theorem retry_zero_immediate_fatal (opens : List Bool) :
    reconnect 0 opens = RecResult.fatalWentAway := by
  unfold reconnect
  rw [if_pos rfl]

/-- Counterexample to claim C6: after a manual Reopen of a three-byte
file, the cursor sits at offset 3 — end-of-file — not at the fresh
handle's filesystem offset 0, and a subsequent read of the pre-existing
content returns nothing. -/
theorem reopen_counterexample :
    reopenPos [1, 2, 3] = 3 ∧
    specReopenPos [1, 2, 3] = 0 ∧
    reopenPos [1, 2, 3] ≠ specReopenPos [1, 2, 3] ∧
    (readAll [1, 2, 3] (reopenPos [1, 2, 3])).1 = [] := by decide

/-- Claim C6 amended: the manual Reopen trigger calls `openFile(false)`
and therefore re-acquires the file positioned at end-of-file, exactly
like the initial open; pre-existing content of the reopened file is
skipped, not readable. -/
theorem reopen_positions_at_end (c : List Nat) :
    reopenPos c = c.length ∧ (readAll c (reopenPos c)).1 = [] := by
  refine ⟨rfl, ?_⟩
  simp [readAll, reopenPos, openFilePos]

/-- Claim C8: once the context is done, a cause other than ordinary
cancellation is emitted as an error record immediately before the
terminal `io.EOF` signal; ordinary cancellation emits no error record,
only the terminal signal. -/
theorem ctx_cause_before_terminal (e : CtxErr) :
    ctxDoneEmissions (some e) =
      if e = CtxErr.canceled then [Rec.eof] else [Rec.errRec e, Rec.eof] := by
  by_cases h : e = CtxErr.canceled <;> simp [ctxDoneEmissions, h]

/-- Claim C9: the carry fragment — the retained last split segment whose
length the cursor is seeked back by — never contains the delimiter
byte. -/
theorem carry_contains_no_delim (c : List Nat) (pos : Nat) :
    delim ∉ carryAfter c pos :=
  splitNL_no_delim _ _ (getLastD_mem _ _ (splitNL_ne_nil (readPhase c pos).1))

/-- Claim C10: `Start`'s initial open positions the handle at
end-of-file, so a Write event after bytes are appended splits and emits
only the appended bytes; content present before `Start` is never part of
an emitted line. -/
theorem start_skips_preexisting (c0 app : List Nat) :
    startPos c0 = c0.length ∧
    (handleWrite (c0 ++ app) (startPos c0)).1 = (splitNL app).dropLast := by
  refine ⟨rfl, ?_⟩
  have hdrop : (c0 ++ app).drop c0.length = app := List.drop_left c0 app
  have hstart : startPos c0 = c0.length := rfl
  rw [hstart]
  cases app with
  | nil =>
    have : c0.length = (c0 ++ ([] : List Nat)).length := by simp
    rw [this]
    simp [handleWrite, readPhase_at_end, splitNL]
  | cons b bs =>
    have hne : (c0 ++ b :: bs).drop c0.length ≠ [] := by
      rw [hdrop]; simp
    have hrp := readPhase_of_drop_ne_nil (c0 ++ b :: bs) c0.length hne
    simp only [handleWrite, hrp, hdrop]

end Follow
